import Mathlib

/-!
Shallow embedding of the table-editor undo/redo logic from `src/pyqt6.py`:
the table model (`MyTableModel`), the two command classes (`EditRowCommand`,
`SelectionUndoCommand`), the selection snapshot (`SelectionState`), the
selection-change handler (`MainWindow.handle_selection_change`), and the
command history (the toolkit's undo stack, modelled from the spec).

Python lists of lists of strings become `List (List String)`; a raised
`IndexError` becomes `Option.none`; Qt's `dataChanged` signal becomes an
explicit list of emitted `Notification` values; Python's dynamically typed
return value of `setData` becomes the sum type `PyVal`.
-/

set_option autoImplicit false

namespace PyqtApp

/-- The table model's `data_array`: a list of rows, each a list of string cells. -/
abbrev Table := List (List String)

/-- One emission of the `dataChanged(topLeft, bottomRight, [role])` signal.
Index pairs are `(row, column)`. -/
structure Notification where
  topLeft : Nat × Nat
  bottomRight : Nat × Nat
  roles : List Nat
deriving DecidableEq

/-- A dynamically typed Python return value (the values `setData` can return). -/
inductive PyVal where
  | bool : Bool → PyVal
  | str : String → PyVal
deriving DecidableEq

/-- `Qt.ItemDataRole.EditRole`. -/
def editRole : Nat := 2

/-- `Qt.ItemDataRole.DisplayRole`. -/
def displayRole : Nat := 0

/-- The default data of `MyTableModel.__init__` when `data` is falsy. -/
def defaultData : Table :=
  [["Item 1", "Description 1"], ["Item 2", "Description 2"]]

/-- `MyTableModel.__init__`: `self.data_array = data or [[...], [...]]`.
`none` models passing `None` (or no argument); a Python empty list is falsy,
so it also selects the default. -/
def MyTableModel.init : Option Table → Table
  | none => defaultData
  | some d => if d.isEmpty then defaultData else d

/-- `MyTableModel.rowCount`: `len(self.data_array)`. -/
def MyTableModel.rowCount (m : Table) : Nat := m.length

/-- `MyTableModel.columnCount`: `len(self.data_array[0]) if self.data_array else 0`. -/
def MyTableModel.columnCount : Table → Nat
  | [] => 0
  | r :: _ => r.length

/-- `MyTableModel.setData(index, value, role)`: when `role == Qt.EditRole`,
writes `data_array[row][col] = value` (an out-of-bounds index raises
`IndexError`, modelled as `none`), emits `dataChanged(index, index, [role])`
and returns `True`; for any other role it returns `False` untouched. -/
def MyTableModel.setData (m : Table) (row col : Nat) (value : String)
    (role : Nat) : Option (Table × PyVal × List Notification) :=
  if role = editRole then
    match m[row]? with
    | none => none
    | some r =>
      match r[col]? with
      | none => none
      | some _ =>
        some (m.set row (r.set col value), PyVal.bool true,
          [⟨(row, col), (row, col), [role]⟩])
  else
    some (m, PyVal.bool false, [])

/-- The per-cell loop shared by `EditRowCommand.undo` and `EditRowCommand.redo`:
`for col, value in enumerate(values): self.model.setData(index(row, col), value)`,
starting at column `col`, collecting the emitted notifications in order. -/
def writeCells (row : Nat) : Table → Nat → List String → Option (Table × List Notification)
  | m, _, [] => some (m, [])
  | m, col, v :: vs =>
    match MyTableModel.setData m row col v editRole with
    | none => none
    | some (m', _, ns) =>
      match writeCells row m' (col + 1) vs with
      | none => none
      | some (m'', ns') => some (m'', ns ++ ns')

/-- `EditRowCommand`: stores the target row index and copies of the prior and
new row values. -/
structure EditRowCommand where
  row : Nat
  old_values : List String
  new_values : List String
deriving DecidableEq

/-- `EditRowCommand.redo`: one `setData` call per entry of `new_values`. -/
def EditRowCommand.redo (c : EditRowCommand) (m : Table) :
    Option (Table × List Notification) :=
  writeCells c.row m 0 c.new_values

/-- `EditRowCommand.undo`: one `setData` call per entry of `old_values`. -/
def EditRowCommand.undo (c : EditRowCommand) (m : Table) :
    Option (Table × List Notification) :=
  writeCells c.row m 0 c.old_values

/-- `SelectionState`: the captured set of selected row indices
(`capture_selection` reduces the selected indexes to their rows). -/
structure SelectionState where
  selected_rows : Finset ℕ
deriving DecidableEq

/-- `SelectionState.apply_selection`: clears the current selection (hence the
`prior` selection is discarded) and selects each stored row in ascending
order; the result is the sequence of selected rows of the selection model. -/
def SelectionState.apply_selection (st : SelectionState) (prior : Finset ℕ) :
    List ℕ :=
  Finset.sort (· ≤ ·) st.selected_rows

/-- `SelectionUndoCommand`: stores the prior and new selection snapshots. -/
structure SelectionUndoCommand where
  old_state : SelectionState
  new_state : SelectionState
deriving DecidableEq

/-- The mutable state the commands act on: the model's `data_array` and the
selection model's set of selected rows. -/
structure AppState where
  table : Table
  selection : Finset ℕ
deriving DecidableEq

/-- A command on the undo stack: `EditRowCommand` or `SelectionUndoCommand`. -/
inductive Command where
  | edit : EditRowCommand → Command
  | selection : SelectionUndoCommand → Command
deriving DecidableEq

/-- `redo` of a command, acting on the application state. An edit command can
fail (raise) on out-of-bounds indices; a selection command always succeeds. -/
def Command.redo : Command → AppState → Option AppState
  | .edit c, s => (c.redo s.table).map (fun p => { s with table := p.1 })
  | .selection c, s =>
      some { s with selection := (c.new_state.apply_selection s.selection).toFinset }

/-- `undo` of a command, acting on the application state. -/
def Command.undo : Command → AppState → Option AppState
  | .edit c, s => (c.undo s.table).map (fun p => { s with table := p.1 })
  | .selection c, s =>
      some { s with selection := (c.old_state.apply_selection s.selection).toFinset }

/-- Result reported by a stack operation that may have nothing to do. -/
inductive StackSignal where
  | ok
  | nothingToUndo
  | nothingToRedo
deriving DecidableEq

/-- Modelled from the spec: the undo stack (`QUndoStack`, created at
`MainWindow.__init__` but implemented by the toolkit, not by `src/pyqt6.py`):
an ordered command list plus a cursor partitioning undoable from redoable
commands, bundled with the application state the commands mutate. -/
structure History where
  commands : List Command
  cursor : Nat
  state : AppState
deriving DecidableEq

/-- Modelled from the spec: `push(cmd)` truncates `commands` to
`commands[0:cursor]`, appends `cmd`, invokes `cmd.apply` (redo), and sets
`cursor = len(commands)`. Fails if the command's application fails. -/
def History.push (h : History) (c : Command) : Option History :=
  match Command.redo c h.state with
  | none => none
  | some s' =>
      some ⟨h.commands.take h.cursor ++ [c],
            (h.commands.take h.cursor ++ [c]).length, s'⟩

/-- Modelled from the spec: `undo()` reports `NothingToUndo` and changes
nothing if `cursor == 0`; else decrements the cursor and invokes
`commands[cursor].reverse`. -/
def History.undo (h : History) : Option (StackSignal × History) :=
  if h.cursor = 0 then
    some (StackSignal.nothingToUndo, h)
  else
    match h.commands[h.cursor - 1]? with
    | none => none
    | some c =>
      (Command.undo c h.state).map
        (fun s' => (StackSignal.ok, { h with cursor := h.cursor - 1, state := s' }))

/-- Modelled from the spec: `redo()` reports `NothingToRedo` and changes
nothing if `cursor == len(commands)`; else invokes `commands[cursor].apply`
and increments the cursor. -/
def History.redo (h : History) : Option (StackSignal × History) :=
  if h.cursor = h.commands.length then
    some (StackSignal.nothingToRedo, h)
  else
    match h.commands[h.cursor]? with
    | none => none
    | some c =>
      (Command.redo c h.state).map
        (fun s' => (StackSignal.ok, { h with cursor := h.cursor + 1, state := s' }))

/-- Pushing a list of commands in order. -/
def History.pushAll : History → List Command → Option History
  | h, [] => some h
  | h, c :: cs =>
    match h.push c with
    | none => none
    | some h' => h'.pushAll cs

/-- `undo()` performed `n` times in a row. -/
def History.undoN : History → Nat → Option History
  | h, 0 => some h
  | h, n + 1 =>
    match h.undo with
    | none => none
    | some (_, h') => h'.undoN n

/-- A command's stored old state matches the live state it is pushed onto:
an edit command's `old_values` are the current contents of its target row
(and its value lists have matching lengths, so its application succeeds); a
selection command's `old_state` is the current selection. -/
def coherent : Command → AppState → Prop
  | .edit c, s =>
      s.table[c.row]? = some c.old_values ∧
      c.new_values.length = c.old_values.length
  | .selection c, s => c.old_state.selected_rows = s.selection

instance instDecidableCoherent (c : Command) (s : AppState) :
    Decidable (coherent c s) :=
  match c with
  | .edit e =>
      inferInstanceAs (Decidable (s.table[e.row]? = some e.old_values ∧
        e.new_values.length = e.old_values.length))
  | .selection e =>
      inferInstanceAs (Decidable (e.old_state.selected_rows = s.selection))

/-- Each command of the list is coherent with the live state at its push
time, and each push succeeds. -/
def coherentChain : History → List Command → Prop
  | _, [] => True
  | h, c :: cs =>
    coherent c h.state ∧
      (match h.push c with
       | none => False
       | some h' => coherentChain h' cs)

instance instDecidableCoherentChain :
    (cs : List Command) → (h : History) → Decidable (coherentChain h cs)
  | [], _ => Decidable.isTrue True.intro
  | c :: cs, h =>
    @instDecidableAnd _ _ (instDecidableCoherent c h.state)
      (match h.push c with
       | none => Decidable.isFalse id
       | some h' => instDecidableCoherentChain cs h')

/-- `MainWindow.handle_selection_change`: capture the current selection; if
its row set differs from the previously captured one, push a
`SelectionUndoCommand(old=previous, new=current)`; in both cases
`previous_selection` becomes the captured snapshot (returned second). -/
def handle_selection_change (h : History) (prev : Finset ℕ) :
    Option (History × Finset ℕ) :=
  let current := h.state.selection
  if current ≠ prev then
    (h.push (Command.selection ⟨⟨prev⟩, ⟨current⟩⟩)).map (fun h' => (h', current))
  else
    some (h, current)

/-- Pure overwrite of a row's cells starting at a column: the value list is
written cell by cell (what the `writeCells` loop does to the target row). -/
def overwrite : List String → Nat → List String → List String
  | l, _, [] => l
  | l, col, v :: vs => overwrite (l.set col v) (col + 1) vs

/-- The notifications emitted by the `writeCells` loop: one per written cell,
each covering exactly that cell. -/
def cellNotifs (row : Nat) : Nat → List String → List Notification
  | _, [] => []
  | col, _ :: vs => ⟨(row, col), (row, col), [editRole]⟩ :: cellNotifs row (col + 1) vs

/-! ### Helper lemmas about lists, `overwrite`, `writeCells` and notifications -/

theorem list_set_of_getElem? {α : Type _} :
    ∀ (l : List α) (i : Nat) (a : α), l[i]? = some a → l.set i a = l := by
  intro l
  induction l with
  | nil => intro i a h; simp at h
  | cons x t ih =>
    intro i a h
    cases i with
    | zero => simp at h; simp [h]
    | succ j => simp at h; simp [ih j a h]

theorem list_take_set_succ {α : Type _} :
    ∀ (l : List α) (col : Nat) (v : α), col < l.length →
      (l.set col v).take (col + 1) = l.take col ++ [v] := by
  intro l
  induction l with
  | nil => intro col v h; simp at h
  | cons x t ih =>
    intro col v h
    cases col with
    | zero => simp
    | succ j =>
      simp only [List.length_cons] at h
      simp only [List.set, List.take, List.cons_append]
      rw [ih j v (by omega)]

theorem overwrite_length :
    ∀ (vs l : List String) (col : Nat), (overwrite l col vs).length = l.length := by
  intro vs
  induction vs with
  | nil => intro l col; rfl
  | cons v vs ih => intro l col; simp [overwrite, ih, List.length_set]

theorem overwrite_full :
    ∀ (vs l : List String) (col : Nat), col + vs.length = l.length →
      overwrite l col vs = l.take col ++ vs := by
  intro vs
  induction vs with
  | nil =>
    intro l col h
    simp only [List.length_nil, Nat.add_zero] at h
    simp [overwrite, List.take_of_length_le (le_of_eq h.symm)]
  | cons v vs ih =>
    intro l col h
    simp only [List.length_cons] at h
    have hc : col < l.length := by omega
    rw [overwrite, ih (l.set col v) (col + 1) (by simp [List.length_set]; omega)]
    rw [list_take_set_succ l col v hc]
    simp

theorem cellNotifs_length (row : Nat) :
    ∀ (vs : List String) (col : Nat), (cellNotifs row col vs).length = vs.length := by
  intro vs
  induction vs with
  | nil => intro col; rfl
  | cons v vs ih => intro col; simp [cellNotifs, ih]

theorem cellNotifs_getElem (row : Nat) :
    ∀ (vs : List String) (col i : Nat), i < vs.length →
      (cellNotifs row col vs)[i]? =
        some ⟨(row, col + i), (row, col + i), [editRole]⟩ := by
  intro vs
  induction vs with
  | nil => intro col i h; simp at h
  | cons v vs ih =>
    intro col i h
    cases i with
    | zero => simp [cellNotifs]
    | succ j =>
      have e : col + 1 + j = col + (j + 1) := by omega
      simp only [cellNotifs, List.getElem?_cons_succ]
      rw [ih (col + 1) j (by simp at h; omega), e]

theorem writeCells_eq :
    ∀ (vs : List String) (m : Table) (row col : Nat) (r : List String),
      m[row]? = some r → col + vs.length ≤ r.length →
      writeCells row m col vs =
        some (m.set row (overwrite r col vs), cellNotifs row col vs) := by
  intro vs
  induction vs with
  | nil =>
    intro m row col r hr _
    simp [writeCells, overwrite, cellNotifs, list_set_of_getElem? m row r hr]
  | cons v vs ih =>
    intro m row col r hr hl
    obtain ⟨hrow, hget⟩ := List.getElem?_eq_some.mp hr
    have hcol : col < r.length := by simp only [List.length_cons] at hl; omega
    have hset : MyTableModel.setData m row col v editRole =
        some (m.set row (r.set col v), PyVal.bool true,
          [⟨(row, col), (row, col), [editRole]⟩]) := by
      simp [MyTableModel.setData, hr, List.getElem?_eq_getElem hcol]
    have hr' : (m.set row (r.set col v))[row]? = some (r.set col v) :=
      List.getElem?_set_self hrow
    simp only [writeCells, hset,
      ih (m.set row (r.set col v)) row (col + 1) (r.set col v) hr'
        (by simp only [List.length_set, List.length_cons] at *; omega)]
    simp [List.set_set, overwrite, cellNotifs]

theorem editRow_roundtrip_aux (c : EditRowCommand) (m : Table)
    (hr : m[c.row]? = some c.old_values)
    (hlen : c.new_values.length ≤ c.old_values.length) :
    ∃ t ns ns', c.redo m = some (t, ns) ∧ c.undo t = some (m, ns') := by
  obtain ⟨hrow, hget⟩ := List.getElem?_eq_some.mp hr
  have h1 := writeCells_eq c.new_values m c.row 0 c.old_values hr (by omega)
  have hr' : (m.set c.row (overwrite c.old_values 0 c.new_values))[c.row]? =
      some (overwrite c.old_values 0 c.new_values) :=
    List.getElem?_set_self hrow
  have h2 := writeCells_eq c.old_values
    (m.set c.row (overwrite c.old_values 0 c.new_values)) c.row 0
    (overwrite c.old_values 0 c.new_values) hr'
    (by simp [overwrite_length])
  have h3 : overwrite (overwrite c.old_values 0 c.new_values) 0 c.old_values =
      c.old_values := by
    rw [overwrite_full _ _ _ (by simp [overwrite_length])]
    simp
  refine ⟨m.set c.row (overwrite c.old_values 0 c.new_values),
    cellNotifs c.row 0 c.new_values, cellNotifs c.row 0 c.old_values, h1, ?_⟩
  rw [EditRowCommand.undo, h2, h3, List.set_set,
    list_set_of_getElem? m c.row c.old_values hr]

/-! ### Helper lemmas about commands and the history -/

theorem coherent_roundtrip (c : Command) (s : AppState) (h : coherent c s) :
    ∃ s', Command.redo c s = some s' ∧ Command.undo c s' = some s := by
  obtain ⟨tab, sel⟩ := s
  cases c with
  | edit e =>
    obtain ⟨hr, hlen⟩ := h
    obtain ⟨t, ns, ns', h1, h2⟩ := editRow_roundtrip_aux e tab hr (le_of_eq hlen)
    exact ⟨⟨t, sel⟩, by simp [Command.redo, h1], by simp [Command.undo, h2]⟩
  | selection sc =>
    have hsel : sc.old_state.selected_rows = sel := h
    refine ⟨⟨tab, (sc.new_state.apply_selection sel).toFinset⟩, rfl, ?_⟩
    simp [Command.undo, SelectionState.apply_selection, Finset.sort_toFinset, hsel]

theorem push_eq {h : History} {c : Command} {h' : History}
    (hp : h.push c = some h') :
    h'.commands = h.commands.take h.cursor ++ [c] ∧
    h'.cursor = h'.commands.length ∧
    Command.redo c h.state = some h'.state := by
  unfold History.push at hp
  cases hred : Command.redo c h.state with
  | none => rw [hred] at hp; cases hp
  | some s' =>
    rw [hred] at hp
    simp only [Option.some_inj] at hp
    refine ⟨?_, ?_, ?_⟩
    · rw [← hp]
    · rw [← hp]
    · rw [← hp]

theorem redo_at_end {h : History} (hc : h.cursor = h.commands.length) :
    h.redo = some (StackSignal.nothingToRedo, h) := by
  simp [History.redo, hc]

theorem undo_step (L : List Command) (k : Nat) (c : Command) (s s₀ : AppState)
    (hks : L[k]? = some c) (hu : Command.undo c s = some s₀) :
    History.undo ⟨L, k + 1, s⟩ = some (StackSignal.ok, ⟨L, k, s₀⟩) := by
  simp [History.undo, hks, hu]

theorem undoN_succ_right :
    ∀ (n : Nat) (h : History),
      h.undoN (n + 1) = (h.undoN n).bind (fun h' => (h'.undo).map Prod.snd) := by
  intro n
  induction n with
  | zero =>
    intro h
    cases hu : h.undo with
    | none => simp [History.undoN, hu]
    | some p => simp [History.undoN, hu]
  | succ k ih =>
    intro h
    cases hu : h.undo with
    | none => simp [History.undoN, hu]
    | some p =>
      have l1 : h.undoN (k + 1 + 1) = p.2.undoN (k + 1) := by
        simp only [History.undoN, hu]
      have l2 : h.undoN (k + 1) = p.2.undoN k := by
        simp only [History.undoN, hu]
      rw [l1, ih p.2, l2]

theorem pushAll_of_coherentChain :
    ∀ (cs : List Command) (h : History), coherentChain h cs →
      ∃ h₁, h.pushAll cs = some h₁ := by
  intro cs
  induction cs with
  | nil => intro h _; exact ⟨h, rfl⟩
  | cons c cs ih =>
    intro h hch
    obtain ⟨hcoh, hrest⟩ := hch
    cases hpush : h.push c with
    | none => simp only [hpush] at hrest
    | some h' =>
      simp only [hpush] at hrest
      obtain ⟨h₁, hp⟩ := ih h' hrest
      exact ⟨h₁, by simp [History.pushAll, hpush, hp]⟩

theorem pushAll_undoN :
    ∀ (cs : List Command) (h h₁ : History),
      h.cursor = h.commands.length → coherentChain h cs →
      h.pushAll cs = some h₁ →
      h₁.commands = h.commands ++ cs ∧ h₁.cursor = h.cursor + cs.length ∧
      h₁.undoN cs.length = some ⟨h₁.commands, h.cursor, h.state⟩ := by
  intro cs
  induction cs with
  | nil =>
    intro h h₁ htop hch hp
    simp only [History.pushAll, Option.some_inj] at hp
    subst hp
    exact ⟨by simp, by simp, by simp [History.undoN]⟩
  | cons c cs ih =>
    intro h h₁ htop hch hp
    obtain ⟨hcoh, hrest⟩ := hch
    cases hpush : h.push c with
    | none => simp only [hpush] at hrest
    | some h' =>
      simp only [History.pushAll, hpush] at hp
      simp only [hpush] at hrest
      obtain ⟨hcmds', hcur', hred⟩ := push_eq hpush
      have hc2 : h'.commands = h.commands ++ [c] := by
        rw [hcmds', htop, List.take_length]
      obtain ⟨ih1, ih2, ih3⟩ := ih h' h₁ hcur' hrest hp
      have hL : h₁.commands = h.commands ++ c :: cs := by
        rw [ih1, hc2, List.append_assoc, List.singleton_append]
      have hcur2 : h'.cursor = h.commands.length + 1 := by
        rw [hcur', hc2, List.length_append, List.length_cons, List.length_nil]
      have hidx : h₁.commands[h.commands.length]? = some c := by
        rw [ih1, hc2, List.getElem?_append, if_pos (by simp)]
        exact List.getElem?_concat_length h.commands c
      obtain ⟨s', hred', hundo⟩ := coherent_roundtrip c h.state hcoh
      have hs' : s' = h'.state := by
        rw [hred] at hred'
        exact (Option.some_inj.mp hred').symm
      subst hs'
      refine ⟨hL, ?_, ?_⟩
      · rw [ih2, hcur2, htop]
        simp [List.length_cons]
        omega
      · rw [hcur2] at ih3
        rw [List.length_cons, undoN_succ_right, ih3]
        simp only [Option.some_bind]
        rw [undo_step h₁.commands h.commands.length c h'.state h.state hidx hundo]
        simp [htop]

/-! ### The claims -/

/-- Claim C1: for every table state and every `EditRowCommand` whose stored
`old_values` equal the current contents of its target row and whose value
lists match the table's column count, invoking `redo()` and then immediately
`undo()` restores every cell of the table to its exact pre-redo value. -/
theorem editRow_redo_then_undo_restores (c : EditRowCommand) (m : Table)
    (hr : m[c.row]? = some c.old_values)
    (hold : c.old_values.length = MyTableModel.columnCount m)
    (hnew : c.new_values.length = MyTableModel.columnCount m) :
    (c.redo m).bind (fun p => (c.undo p.1).map Prod.fst) = some m := by
  obtain ⟨t, ns, ns', h1, h2⟩ := editRow_roundtrip_aux c m hr (by omega)
  rw [h1]
  simp [h2]

/-- Witness for C1 on the default table: editing row 0 to `["x", "y"]` and
undoing restores the default table. -/
theorem editRow_redo_then_undo_restores_witness :
    defaultData[(0 : Nat)]? = some ["Item 1", "Description 1"] ∧
    (["Item 1", "Description 1"] : List String).length =
      MyTableModel.columnCount defaultData ∧
    (["x", "y"] : List String).length = MyTableModel.columnCount defaultData ∧
    ((⟨0, ["Item 1", "Description 1"], ["x", "y"]⟩ : EditRowCommand).redo
        defaultData).bind
      (fun p =>
        ((⟨0, ["Item 1", "Description 1"], ["x", "y"]⟩ : EditRowCommand).undo
            p.1).map Prod.fst) = some defaultData :=
  ⟨by decide, by decide, by decide,
    editRow_redo_then_undo_restores
      ⟨0, ["Item 1", "Description 1"], ["x", "y"]⟩ defaultData
      (by decide) (by decide) (by decide)⟩

/-- Claim C2: for every well-formed history and every list of commands pushed
onto it, each command's stored old state matching the live state at its push
time, performing as many `undo()` operations afterwards returns both the
table contents and the selection state exactly to what they were before the
first push. -/
theorem pushN_undoN_roundtrip (h₀ : History) (cs : List Command)
    (hinv : h₀.cursor ≤ h₀.commands.length) (hch : coherentChain h₀ cs) :
    ∃ h₁, h₀.pushAll cs = some h₁ ∧
      ∃ h₂, h₁.undoN cs.length = some h₂ ∧
        h₂.state.table = h₀.state.table ∧
        h₂.state.selection = h₀.state.selection := by
  cases cs with
  | nil => exact ⟨h₀, rfl, h₀, rfl, rfl, rfl⟩
  | cons c cs =>
    obtain ⟨hcoh, hrest⟩ := hch
    cases hpush : h₀.push c with
    | none =>
      obtain ⟨s', hred, _⟩ := coherent_roundtrip c h₀.state hcoh
      simp [History.push, hred] at hpush
    | some h' =>
      simp only [hpush] at hrest
      obtain ⟨hcmds', hcur', hred'⟩ := push_eq hpush
      obtain ⟨h₁, hp⟩ := pushAll_of_coherentChain cs h' hrest
      obtain ⟨ih1, ih2, ih3⟩ := pushAll_undoN cs h' h₁ hcur' hrest hp
      have hpAll : h₀.pushAll (c :: cs) = some h₁ := by
        simp only [History.pushAll, hpush]
        exact hp
      refine ⟨h₁, hpAll, ?_⟩
      have hlen_take : (h₀.commands.take h₀.cursor).length = h₀.cursor := by
        rw [List.length_take, Nat.min_eq_left hinv]
      have hcur2 : h'.cursor = h₀.cursor + 1 := by
        rw [hcur', hcmds', List.length_append, hlen_take]
        rfl
      have hidx : h₁.commands[h₀.cursor]? = some c := by
        rw [ih1, hcmds', List.getElem?_append, if_pos (by simp [hlen_take])]
        have hcat := List.getElem?_concat_length (h₀.commands.take h₀.cursor) c
        rw [hlen_take] at hcat
        exact hcat
      obtain ⟨s', hred, hundo⟩ := coherent_roundtrip c h₀.state hcoh
      have hs' : s' = h'.state := Option.some_inj.mp (hred.symm.trans hred')
      subst hs'
      rw [List.length_cons, undoN_succ_right, ih3]
      simp only [Option.some_bind]
      refine ⟨⟨h₁.commands, h₀.cursor, h₀.state⟩, ?_, rfl, rfl⟩
      rw [hcur2, undo_step h₁.commands h₀.cursor c h'.state h₀.state hidx hundo]
      rfl

/-- Witness for C2: push one coherent edit command onto an empty history, then
undo once; the state returns to the default table with empty selection. -/
theorem pushN_undoN_roundtrip_witness :
    (⟨[], 0, ⟨defaultData, ∅⟩⟩ : History).cursor ≤
      (⟨[], 0, ⟨defaultData, ∅⟩⟩ : History).commands.length ∧
    coherentChain ⟨[], 0, ⟨defaultData, ∅⟩⟩
      [Command.edit ⟨0, ["Item 1", "Description 1"], ["x", "y"]⟩] ∧
    (∃ h₁, History.pushAll ⟨[], 0, ⟨defaultData, ∅⟩⟩
        [Command.edit ⟨0, ["Item 1", "Description 1"], ["x", "y"]⟩] = some h₁ ∧
      ∃ h₂, h₁.undoN
          [Command.edit ⟨0, ["Item 1", "Description 1"], ["x", "y"]⟩].length =
          some h₂ ∧
        h₂.state.table = defaultData ∧ h₂.state.selection = ∅) :=
  ⟨by decide, by decide,
    pushN_undoN_roundtrip ⟨[], 0, ⟨defaultData, ∅⟩⟩
      [Command.edit ⟨0, ["Item 1", "Description 1"], ["x", "y"]⟩]
      (by decide) (by decide)⟩

/-- Claim C3: for every history state with cursor strictly below the number
of stored commands, a successful `push(cmd)` discards all commands at or
after the cursor, appends `cmd`, applies it, and sets the cursor to the new
length; consequently `redo()` reports `NothingToRedo` immediately after the
push, and still does after any further push, until an undo occurs. -/
theorem push_truncates_redo_tail (h : History) (c : Command) (h' : History)
    (hc : h.cursor < h.commands.length) (hp : h.push c = some h') :
    h'.commands = h.commands.take h.cursor ++ [c] ∧
    Command.redo c h.state = some h'.state ∧
    h'.cursor = h'.commands.length ∧
    h'.redo = some (StackSignal.nothingToRedo, h') ∧
    (∀ c₂ h₂, h'.push c₂ = some h₂ →
      h₂.redo = some (StackSignal.nothingToRedo, h₂)) := by
  obtain ⟨h1, h2, h3⟩ := push_eq hp
  refine ⟨h1, h3, h2, redo_at_end h2, ?_⟩
  intro c₂ h₂ hp₂
  obtain ⟨_, g2, _⟩ := push_eq hp₂
  exact redo_at_end g2

/-- Witness for C3: a history holding one redoable edit command (cursor 0)
receives a push of another edit command; the old command is discarded and
redo reports `NothingToRedo`. -/
theorem push_truncates_redo_tail_witness :
    (⟨[Command.edit ⟨1, ["Item 2", "Description 2"], ["p", "q"]⟩], 0,
      ⟨defaultData, ∅⟩⟩ : History).cursor <
      (⟨[Command.edit ⟨1, ["Item 2", "Description 2"], ["p", "q"]⟩], 0,
        ⟨defaultData, ∅⟩⟩ : History).commands.length ∧
    History.push
        ⟨[Command.edit ⟨1, ["Item 2", "Description 2"], ["p", "q"]⟩], 0,
          ⟨defaultData, ∅⟩⟩
        (Command.edit ⟨0, ["Item 1", "Description 1"], ["x", "y"]⟩) =
      some ⟨[Command.edit ⟨0, ["Item 1", "Description 1"], ["x", "y"]⟩], 1,
        ⟨[["x", "y"], ["Item 2", "Description 2"]], ∅⟩⟩ ∧
    ((⟨[Command.edit ⟨0, ["Item 1", "Description 1"], ["x", "y"]⟩], 1,
        ⟨[["x", "y"], ["Item 2", "Description 2"]], ∅⟩⟩ : History).commands =
      (⟨[Command.edit ⟨1, ["Item 2", "Description 2"], ["p", "q"]⟩], 0,
        ⟨defaultData, ∅⟩⟩ : History).commands.take 0 ++
        [Command.edit ⟨0, ["Item 1", "Description 1"], ["x", "y"]⟩] ∧
    Command.redo (Command.edit ⟨0, ["Item 1", "Description 1"], ["x", "y"]⟩)
        ⟨defaultData, ∅⟩ =
      some (⟨[["x", "y"], ["Item 2", "Description 2"]], ∅⟩ : AppState) ∧
    (⟨[Command.edit ⟨0, ["Item 1", "Description 1"], ["x", "y"]⟩], 1,
      ⟨[["x", "y"], ["Item 2", "Description 2"]], ∅⟩⟩ : History).cursor =
      (⟨[Command.edit ⟨0, ["Item 1", "Description 1"], ["x", "y"]⟩], 1,
        ⟨[["x", "y"], ["Item 2", "Description 2"]], ∅⟩⟩ : History).commands.length ∧
    History.redo
        ⟨[Command.edit ⟨0, ["Item 1", "Description 1"], ["x", "y"]⟩], 1,
          ⟨[["x", "y"], ["Item 2", "Description 2"]], ∅⟩⟩ =
      some (StackSignal.nothingToRedo,
        ⟨[Command.edit ⟨0, ["Item 1", "Description 1"], ["x", "y"]⟩], 1,
          ⟨[["x", "y"], ["Item 2", "Description 2"]], ∅⟩⟩) ∧
    (∀ c₂ h₂,
      History.push
          ⟨[Command.edit ⟨0, ["Item 1", "Description 1"], ["x", "y"]⟩], 1,
            ⟨[["x", "y"], ["Item 2", "Description 2"]], ∅⟩⟩ c₂ =
        some h₂ →
      h₂.redo = some (StackSignal.nothingToRedo, h₂))) :=
  ⟨by decide, by decide,
    push_truncates_redo_tail
      ⟨[Command.edit ⟨1, ["Item 2", "Description 2"], ["p", "q"]⟩], 0,
        ⟨defaultData, ∅⟩⟩
      (Command.edit ⟨0, ["Item 1", "Description 1"], ["x", "y"]⟩)
      ⟨[Command.edit ⟨0, ["Item 1", "Description 1"], ["x", "y"]⟩], 1,
        ⟨[["x", "y"], ["Item 2", "Description 2"]], ∅⟩⟩
      (by decide) (by decide)⟩

/-- Counterexample to C4 as stated: for the in-bounds cell (0,0) of the
default table, whose previous value is the string `"Item 1"`, `setData`
returns the boolean `True`, not the previous value. -/
theorem setData_return_not_previous_value :
    (defaultData[(0 : Nat)]?.bind fun r => r[(0 : Nat)]?) = some "Item 1" ∧
    (MyTableModel.setData defaultData 0 0 "x" editRole).map (fun p => p.2.1) =
      some (PyVal.bool true) ∧
    PyVal.bool true ≠ PyVal.str "Item 1" :=
  ⟨by decide, by decide, by decide⟩

/-- Claim C4 (amended): `setData` under `EditRole` fails (an uncaught
`IndexError`) when the row or column index is out of the table's current
dimensions, and for in-bounds indices it writes the cell, emits one
notification for it, and returns the boolean `True` — not the previous
value. -/
theorem setData_oob_fails_inbounds_returns_true (m : Table) (row col : Nat)
    (v : String) :
    ((m[row]?.bind fun r => r[col]?) = none →
      MyTableModel.setData m row col v editRole = none) ∧
    (∀ r cell, m[row]? = some r → r[col]? = some cell →
      MyTableModel.setData m row col v editRole =
        some (m.set row (r.set col v), PyVal.bool true,
          [⟨(row, col), (row, col), [editRole]⟩])) := by
  constructor
  · intro hnone
    cases hr : m[row]? with
    | none => simp [MyTableModel.setData, hr]
    | some r =>
      rw [hr] at hnone
      simp only [Option.some_bind] at hnone
      simp [MyTableModel.setData, hr, hnone]
  · intro r cell hr hc
    simp [MyTableModel.setData, hr, hc]

/-- Witness for the amended C4: the out-of-bounds row 5 fails, and the
in-bounds cell (0,1) succeeds returning `True`. -/
theorem setData_oob_fails_inbounds_returns_true_witness :
    (defaultData[(5 : Nat)]?.bind fun r => r[(0 : Nat)]?) = none ∧
    MyTableModel.setData defaultData 5 0 "x" editRole = none ∧
    MyTableModel.setData defaultData 0 1 "x" editRole =
      some ([["Item 1", "x"], ["Item 2", "Description 2"]], PyVal.bool true,
        [⟨(0, 1), (0, 1), [editRole]⟩]) :=
  ⟨by decide,
    (setData_oob_fails_inbounds_returns_true defaultData 5 0 "x").1 (by decide),
    (setData_oob_fails_inbounds_returns_true defaultData 0 1 "x").2
      ["Item 1", "Description 1"] "Description 1" (by decide) (by decide)⟩

/-- Counterexample to C5 as stated: applying an edit command over the two
columns of the default table fires two change notifications (one per cell),
not exactly one. -/
theorem editRow_not_single_notification :
    ((⟨0, ["Item 1", "Description 1"], ["a", "b"]⟩ : EditRowCommand).redo
        defaultData).map (fun p => p.2.length) = some 2 ∧
    ((⟨0, ["Item 1", "Description 1"], ["a", "b"]⟩ : EditRowCommand).redo
        defaultData).map (fun p => p.2) =
      some [⟨(0, 0), (0, 0), [editRole]⟩, ⟨(0, 1), (0, 1), [editRole]⟩] ∧
    (2 : Nat) ≠ 1 :=
  ⟨by decide, by decide, by decide⟩

/-- Claim C5 (amended): each edit-command application (redo or undo) fires
one change notification per cell written — as many notifications as the
command has values — and the i-th notification covers exactly the single
cell `(row, i)`, emitted as that cell is written, never one batched
notification for the whole row. -/
theorem editRow_per_cell_notifications (c : EditRowCommand) (m : Table)
    (r : List String) (hr : m[c.row]? = some r)
    (hnew : c.new_values.length ≤ r.length)
    (hold : c.old_values.length ≤ r.length) :
    c.redo m = some (m.set c.row (overwrite r 0 c.new_values),
      cellNotifs c.row 0 c.new_values) ∧
    c.undo m = some (m.set c.row (overwrite r 0 c.old_values),
      cellNotifs c.row 0 c.old_values) ∧
    (cellNotifs c.row 0 c.new_values).length = c.new_values.length ∧
    (cellNotifs c.row 0 c.old_values).length = c.old_values.length ∧
    (∀ i, i < c.new_values.length →
      (cellNotifs c.row 0 c.new_values)[i]? =
        some ⟨(c.row, i), (c.row, i), [editRole]⟩) := by
  refine ⟨writeCells_eq c.new_values m c.row 0 r hr (by omega),
    writeCells_eq c.old_values m c.row 0 r hr (by omega),
    cellNotifs_length c.row c.new_values 0,
    cellNotifs_length c.row c.old_values 0, ?_⟩
  intro i hi
  have := cellNotifs_getElem c.row c.new_values 0 i hi
  simpa using this

/-- Witness for the amended C5 on the default table with a two-value edit
command. -/
theorem editRow_per_cell_notifications_witness :
    defaultData[(0 : Nat)]? = some ["Item 1", "Description 1"] ∧
    ((⟨0, ["Item 1", "Description 1"], ["a", "b"]⟩ : EditRowCommand).redo
        defaultData = some ([["a", "b"], ["Item 2", "Description 2"]],
        [⟨(0, 0), (0, 0), [editRole]⟩, ⟨(0, 1), (0, 1), [editRole]⟩]) ∧
      (⟨0, ["Item 1", "Description 1"], ["a", "b"]⟩ : EditRowCommand).undo
        defaultData = some (defaultData,
        [⟨(0, 0), (0, 0), [editRole]⟩, ⟨(0, 1), (0, 1), [editRole]⟩]) ∧
      ([⟨(0, 0), (0, 0), [editRole]⟩,
        ⟨(0, 1), (0, 1), [editRole]⟩] : List Notification).length = 2 ∧
      ([⟨(0, 0), (0, 0), [editRole]⟩,
        ⟨(0, 1), (0, 1), [editRole]⟩] : List Notification).length = 2 ∧
      (∀ i, i < 2 →
        ([⟨(0, 0), (0, 0), [editRole]⟩,
          ⟨(0, 1), (0, 1), [editRole]⟩] : List Notification)[i]? =
          some ⟨(0, i), (0, i), [editRole]⟩)) :=
  ⟨by decide,
    editRow_per_cell_notifications ⟨0, ["Item 1", "Description 1"], ["a", "b"]⟩
      defaultData ["Item 1", "Description 1"] (by decide) (by decide) (by decide)⟩

/-- Claim C6: on a selection-changed event, a `SelectionUndoCommand` is
pushed if and only if the newly captured set of selected rows differs from
the previously captured set; when they are equal nothing is pushed and the
history is unchanged. -/
theorem selection_change_pushes_iff (h : History) (prev : Finset ℕ) :
    (h.state.selection = prev →
      handle_selection_change h prev = some (h, h.state.selection)) ∧
    (h.state.selection ≠ prev →
      ∃ h', handle_selection_change h prev = some (h', h.state.selection) ∧
        h'.commands = h.commands.take h.cursor ++
          [Command.selection ⟨⟨prev⟩, ⟨h.state.selection⟩⟩] ∧
        h'.cursor = h'.commands.length) := by
  constructor
  · intro he
    simp [handle_selection_change, he]
  · intro hne
    refine ⟨⟨h.commands.take h.cursor ++
        [Command.selection ⟨⟨prev⟩, ⟨h.state.selection⟩⟩],
      (h.commands.take h.cursor ++
        [Command.selection ⟨⟨prev⟩, ⟨h.state.selection⟩⟩]).length,
      { h.state with selection :=
          ((⟨h.state.selection⟩ : SelectionState).apply_selection
            h.state.selection).toFinset }⟩, ?_, rfl, rfl⟩
    simp [handle_selection_change, hne, History.push, Command.redo]

/-- Witness for C6: with previous selection `{0}` and live selection `{0}`
nothing is pushed; with previous selection `∅` and live selection `{0}` a
selection command is pushed. -/
theorem selection_change_pushes_iff_witness :
    handle_selection_change ⟨[], 0, ⟨defaultData, {0}⟩⟩ {0} =
      some (⟨[], 0, ⟨defaultData, {0}⟩⟩, {0}) ∧
    (∃ h', handle_selection_change ⟨[], 0, ⟨defaultData, {0}⟩⟩ ∅ =
        some (h', {0}) ∧
      h'.commands = [Command.selection ⟨⟨∅⟩, ⟨{0}⟩⟩] ∧
      h'.cursor = h'.commands.length) :=
  ⟨(selection_change_pushes_iff ⟨[], 0, ⟨defaultData, {0}⟩⟩ {0}).1 (by decide),
    (selection_change_pushes_iff ⟨[], 0, ⟨defaultData, {0}⟩⟩ ∅).2 (by decide)⟩

/-- Claim C7: `apply_selection` clears the current selection and selects each
stored row in ascending order, so the resulting selected-row sequence is
sorted ascending and its row set equals exactly the stored set, regardless
of the prior selection. -/
theorem apply_selection_result (st : SelectionState) (prior : Finset ℕ) :
    List.Sorted (· ≤ ·) (st.apply_selection prior) ∧
    (st.apply_selection prior).toFinset = st.selected_rows :=
  ⟨Finset.sort_sorted _ _, Finset.sort_toFinset _ _⟩

/-- Claim C8: when the history is empty of undoable commands (cursor 0),
`undo()` reports `NothingToUndo` and returns the history — table contents
and selection state included — completely unchanged. -/
theorem undo_on_empty_reports_nothing (h : History) (hc : h.cursor = 0) :
    h.undo = some (StackSignal.nothingToUndo, h) := by
  simp [History.undo, hc]

/-- Witness for C8 on the empty history over the default table. -/
theorem undo_on_empty_reports_nothing_witness :
    (⟨[], 0, ⟨defaultData, ∅⟩⟩ : History).cursor = 0 ∧
    History.undo ⟨[], 0, ⟨defaultData, ∅⟩⟩ =
      some (StackSignal.nothingToUndo, ⟨[], 0, ⟨defaultData, ∅⟩⟩) :=
  ⟨rfl, undo_on_empty_reports_nothing ⟨[], 0, ⟨defaultData, ∅⟩⟩ rfl⟩

/-- Claim C9: `setData` with any role other than `EditRole` returns `False`
and leaves the table unchanged, emitting no change notification. -/
theorem setData_rejects_other_roles (m : Table) (row col : Nat) (v : String)
    (role : Nat) (hrole : role ≠ editRole) :
    MyTableModel.setData m row col v role = some (m, PyVal.bool false, []) := by
  simp [MyTableModel.setData, hrole]

/-- Witness for C9 at `DisplayRole` on the default table. -/
theorem setData_rejects_other_roles_witness :
    displayRole ≠ editRole ∧
    MyTableModel.setData defaultData 0 0 "x" displayRole =
      some (defaultData, PyVal.bool false, []) :=
  ⟨by decide,
    setData_rejects_other_roles defaultData 0 0 "x" displayRole (by decide)⟩

/-- Counterexample to C10 as stated: passing the truthy data `[[]]` yields
the stored array `[[]]`, on which `columnCount` returns 0 even though the
array itself is not empty. -/
theorem columnCount_zero_on_nonempty_array :
    MyTableModel.init (some [[]]) = [[]] ∧
    MyTableModel.columnCount [[]] = 0 ∧
    ([[]] : Table) ≠ [] :=
  ⟨by decide, by decide, by decide⟩

/-- Claim C10 (amended): constructing `MyTableModel` with a falsy data
argument (`None` or the empty list) yields the default two-by-two table, a
truthy list is stored as given (so an empty table cannot be obtained by
passing an empty list), and `columnCount` returns 0 exactly when the stored
array is empty or its first row is empty. -/
theorem init_default_and_columnCount (d : Table) (hd : d ≠ []) :
    MyTableModel.init none = defaultData ∧
    MyTableModel.init (some []) = defaultData ∧
    MyTableModel.init (some d) = d ∧
    (∀ m : Table, MyTableModel.columnCount m = 0 ↔ m.head?.getD [] = []) := by
  refine ⟨rfl, rfl, by simp [MyTableModel.init, hd], ?_⟩
  intro m
  cases m with
  | nil => simp [MyTableModel.columnCount]
  | cons r t => simp [MyTableModel.columnCount, List.length_eq_zero]

/-- Witness for the amended C10 with the non-empty data `[["x"]]`. -/
theorem init_default_and_columnCount_witness :
    ([["x"]] : Table) ≠ [] ∧
    (MyTableModel.init none = defaultData ∧
      MyTableModel.init (some []) = defaultData ∧
      MyTableModel.init (some [["x"]]) = [["x"]] ∧
      (∀ m : Table, MyTableModel.columnCount m = 0 ↔ m.head?.getD [] = [])) :=
  ⟨by decide, init_default_and_columnCount [["x"]] (by decide)⟩

end PyqtApp
